import Mathlib

/-!
Verification of the orchestration layer of the `gitar` command-line
git-hosting client: the response envelope (`src/io.rs`), the page-cursor
resolver (`parse_link_headers`), the rate-limit normalizer
(`get_ratelimit_headers`), and the parallel command executor together with
the caller-side fold `get_repo_project_info` (`src/merge_request.rs`).

Machine integers are modelled as `Nat` with explicit bounds where the Rust
code can fail on overflow (`str::parse::<u32>` / `str::parse::<u64>`).
Rust `Result<T>` values (whose error type is a boxed dynamic error) are
modelled as `Except String T`.  Rust `HashMap<String, String>` header maps
are modelled as association lists with first-match lookup.
-/

/-- Numeric value of a list of decimal digit characters, most significant
first (the value computed by a successful Rust `str::parse`). -/
def digitsVal (cs : List Char) : Nat :=
  cs.foldl (fun a c => a * 10 + (c.toNat - 48)) 0

/-- Rust `str::parse::<uN>` for an unsigned integer type of `bits` bits:
an optional leading plus sign, then one or more decimal digits, and the
value must fit in the type; anything else is a parse error. -/
def parseUnsigned (bits : Nat) (s : String) : Option Nat :=
  let cs := if s.data.head? = some '+' then s.data.tail else s.data
  if cs.isEmpty then none
  else if cs.all Char.isDigit then
    let n := digitsVal cs
    if n < 2 ^ bits then some n else none
  else none

/-- Modelled from the spec: `crate::time` is not under `src/`.  `Seconds`
is the epoch-seconds value type (a newtype over `u64` with a derived
all-zero `Default`, a `new` constructor and numeric addition), modelled as
`Nat`. -/
abbrev Seconds := Nat

/-- `Seconds::new`. -/
def Seconds.new (n : Nat) : Seconds := n

namespace remote

/-- Modelled from the spec: `crate::remote::Project` is not under `src/`.
The spec only uses it as "project metadata" carried by a `CmdInfo` tag;
the merge-request flow reads its default branch.  A derived `Default`
gives empty fields. -/
structure Project where
  default_branch : String := ""
deriving DecidableEq

/-- `Project::default()`. -/
def Project.default : Project := {}

/-- Modelled from the spec: `crate::remote::Member` is not under `src/`.
A project member with an id and a username, as consumed by the
merge-request assignee selection. -/
structure Member where
  id : Nat := 0
  username : String := ""
deriving DecidableEq

/-- Modelled from the spec: `crate::remote::MergeRequestResponse` is not
under `src/`.  Only its presence as a `CmdInfo` payload matters to the
claims; the listing code reads these fields. -/
structure MergeRequestResponse where
  id : Nat := 0
  web_url : String := ""
  author : String := ""
  updated_at : String := ""
  source_branch : String := ""
deriving DecidableEq

end remote

namespace git

/-- Modelled from the spec: `crate::git::Repo` is not under `src/`.  The
"local repository facts" record: the fold in `get_repo_project_info`
patches a derived-default `Repo` through `with_status`, `with_branch`,
`with_title` and `with_last_commit_message`, and the merge-request flow
reads the corresponding accessors. -/
structure Repo where
  title : String := ""
  current_branch : String := ""
  last_commit_message : String := ""
  status_modified : Bool := false
deriving DecidableEq

/-- `Repo::default()`. -/
def Repo.default : Repo := {}

/-- `Repo::with_status`. -/
def Repo.with_status (r : Repo) (status : Bool) : Repo :=
  { r with status_modified := status }

/-- `Repo::with_branch`. -/
def Repo.with_branch (r : Repo) (branch : String) : Repo :=
  { r with current_branch := branch }

/-- `Repo::with_title`. -/
def Repo.with_title (r : Repo) (title : String) : Repo :=
  { r with title := title }

/-- `Repo::with_last_commit_message`. -/
def Repo.with_last_commit_message (r : Repo) (message : String) : Repo :=
  { r with last_commit_message := message }

end git

/-- `io::CmdInfo` (src/io.rs): the closed tagged union over the kinds of
information any command may produce. -/
inductive CmdInfo where
  | StatusModified (status : Bool)
  | RemoteUrl (domain : String) (path : String)
  | Branch (branch : String)
  | LastCommitSummary (summary : String)
  | LastCommitMessage (message : String)
  | Project (project : remote.Project)
  | Members (members : List remote.Member)
  | MergeRequest (mr : remote.MergeRequestResponse)
  | MergeRequestsList (mrs : List remote.MergeRequestResponse)
  | OutgoingCommits (commits : String)
  | Ignore
  | Exit
deriving DecidableEq

/-- `io::Page` (src/io.rs). -/
structure Page where
  url : String
  number : Nat
deriving DecidableEq

/-- `Page::new`. -/
def Page.new (url : String) (number : Nat) : Page :=
  { url := url, number := number }

/-- `io::PageHeader` (src/io.rs). -/
structure PageHeader where
  next : Option Page := none
  last : Option Page := none
deriving DecidableEq

/-- `PageHeader::new` (the derived `Default`: both fields unset). -/
def PageHeader.new : PageHeader := {}

/-- `PageHeader::set_next_page`. -/
def PageHeader.set_next_page (ph : PageHeader) (page : Page) : PageHeader :=
  { ph with next := some page }

/-- `PageHeader::set_last_page`. -/
def PageHeader.set_last_page (ph : PageHeader) (page : Page) : PageHeader :=
  { ph with last := some page }

/-- The constant `NEXT` (src/io.rs). -/
def NEXT : String := "next"

/-- The constant `LAST` (src/io.rs). -/
def LAST : String := "last"

/-- The constant `LINK_HEADER` (src/io.rs). -/
def LINK_HEADER : String := "link"

/-- Split a character list at the first occurrence of `stop`: returns the
characters before it and the characters after it, or `none` when `stop`
does not occur.  Used to model the regex pieces `([^>]+)>` and
`([^"]+)"`, whose negated character classes make the greedy match
deterministic: they match exactly up to the next `stop` character. -/
def splitAtChar (stop : Char) : List Char → Option (List Char × List Char)
  | [] => none
  | c :: rest =>
    if c = stop then some ([], rest)
    else
      match splitAtChar stop rest with
      | some (pre, post) => some (c :: pre, post)
      | none => none

/-- Match a literal character sequence at the head of the input and return
the remainder. -/
def stripLit : List Char → List Char → Option (List Char)
  | [], cs => some cs
  | _ :: _, [] => none
  | l :: ls, c :: cs => if c = l then stripLit ls cs else none

/-- The characters matched by the regex class `\s` (ASCII part). -/
def isWhitespaceChar (c : Char) : Bool :=
  c = ' ' || c = '\t' || c = '\n' || c = '\x0b' || c = '\x0c' || c = '\r'

/-- One match attempt of the anchored regex `<([^>]+)>;\s*rel="([^"]+)"`
(`RE_URL` in src/io.rs) at the head of the input.  On success it returns
the two capture groups (url, rel) and the characters after the match. -/
def matchUrlEntryAt (cs : List Char) : Option ((String × String) × List Char) :=
  match cs with
  | '<' :: rest =>
    match splitAtChar '>' rest with
    | some (url, rest2) =>
      if url.isEmpty then none
      else
        match rest2 with
        | ';' :: rest3 =>
          let rest4 := rest3.dropWhile isWhitespaceChar
          match stripLit [ 'r', 'e', 'l', '=', '"' ] rest4 with
          | some rest5 =>
            match splitAtChar '"' rest5 with
            | some (rel, rest6) =>
              if rel.isEmpty then none
              else some ((url.asString, rel.asString), rest6)
            | none => none
          | none => none
        | _ => none
    | none => none
  | _ => none

/-- `RE_URL.captures_iter`: scan left to right for non-overlapping
leftmost matches, resuming after each match.  Implemented with a fuel
argument equal to the input length (every step consumes at least one
character, so the fuel never runs out). -/
def findUrlEntriesAux : Nat → List Char → List (String × String)
  | 0, _ => []
  | _ + 1, [] => []
  | fuel + 1, c :: rest =>
    match matchUrlEntryAt (c :: rest) with
    | some (entry, after) => entry :: findUrlEntriesAux fuel after
    | none => findUrlEntriesAux fuel rest

/-- All `(url, rel)` capture pairs of `RE_URL` in the input, in order. -/
def findUrlEntries (cs : List Char) : List (String × String) :=
  findUrlEntriesAux cs.length cs

/-- The characters of the negated class `[^(per_)]` in `RE_PAGE_NUMBER`
(src/io.rs): the class excludes the six characters `(`, `p`, `e`, `r`,
`_`, `)`. -/
def pageExcludedChar (c : Char) : Bool :=
  c = '(' || c = 'p' || c = 'e' || c = 'r' || c = '_' || c = ')'

/-- One match attempt of the anchored regex `[^(per_)]page=(\d+)`
(`RE_PAGE_NUMBER` in src/io.rs) at the head of the input.  On success it
returns the digit capture group and the characters after the match; the
greedy `(\d+)` at the end of the pattern captures the maximal digit run. -/
def matchPageAt (cs : List Char) : Option (String × List Char) :=
  match cs with
  | [] => none
  | c :: rest =>
    if pageExcludedChar c then none
    else
      match stripLit [ 'p', 'a', 'g', 'e', '=' ] rest with
      | some rest2 =>
        let digits := rest2.takeWhile Char.isDigit
        if digits.isEmpty then none
        else some (digits.asString, rest2.drop digits.length)
      | none => none

/-- `RE_PAGE_NUMBER.captures_iter`, fuel-implemented like
`findUrlEntriesAux`. -/
def findPageCapturesAux : Nat → List Char → List String
  | 0, _ => []
  | _ + 1, [] => []
  | fuel + 1, c :: rest =>
    match matchPageAt (c :: rest) with
    | some (cap, after) => cap :: findPageCapturesAux fuel after
    | none => findPageCapturesAux fuel rest

/-- All digit captures of `RE_PAGE_NUMBER` in the input, in order. -/
def findPageCaptures (cs : List Char) : List String :=
  findPageCapturesAux cs.length cs

/-- `page_number.parse::<u32>().unwrap_or(0)` applied to a captured digit
string (src/io.rs, parse_link_headers). -/
def pageNumberOf (s : String) : Nat :=
  (parseUnsigned 32 s).getD 0

/-- The body of the `captures_iter(link)` loop of `parse_link_headers`
(src/io.rs) for one `(url, rel)` capture: when `rel` is `next`, every
page-number capture of the url sets the next page (the last one wins);
when `rel` is `last`, likewise for the last page.  The source guards
`cap.len() > 2` and `page_cap.len() == 2` always hold for these regexes
(group count is fixed by the pattern). -/
def applyLinkEntry (ph : PageHeader) (entry : String × String) : PageHeader :=
  let url := entry.1
  let rel := entry.2
  let ph1 :=
    if rel = NEXT then
      (findPageCaptures url.data).foldl
        (fun acc cap => acc.set_next_page (Page.new url (pageNumberOf cap))) ph
    else ph
  if rel = LAST then
    (findPageCaptures url.data).foldl
      (fun acc cap => acc.set_last_page (Page.new url (pageNumberOf cap))) ph1
  else ph1

/-- `io::parse_link_headers` (src/io.rs). -/
def parse_link_headers (link : String) : PageHeader :=
  (findUrlEntries link.data).foldl applyLinkEntry PageHeader.new

/-- `io::RateLimitHeader` (src/io.rs). -/
structure RateLimitHeader where
  remaining : Nat
  reset : Seconds
deriving DecidableEq

/-- The derived `Default` of `RateLimitHeader`: `u32` defaults to 0 and
`Seconds` (modelled, see `Seconds`) defaults to 0. -/
def RateLimitHeader.default : RateLimitHeader :=
  { remaining := 0, reset := 0 }

/-- `RateLimitHeader::new`. -/
def RateLimitHeader.new (remaining : Nat) (reset : Seconds) : RateLimitHeader :=
  { remaining := remaining, reset := reset }

/-- The constant `GITHUB_RATELIMIT_REMAINING` (src/io.rs). -/
def GITHUB_RATELIMIT_REMAINING : String := "x-ratelimit-remaining"

/-- The constant `GITHUB_RATELIMIT_RESET` (src/io.rs). -/
def GITHUB_RATELIMIT_RESET : String := "x-ratelimit-reset"

/-- The constant `GITLAB_RATELIMIT_REMAINING` (src/io.rs). -/
def GITLAB_RATELIMIT_REMAINING : String := "ratelimit-remaining"

/-- The constant `GITLAB_RATELIMIT_RESET` (src/io.rs). -/
def GITLAB_RATELIMIT_RESET : String := "ratelimit-reset"

/-- `io::Response` (src/io.rs).  The header `HashMap<String, String>` is
modelled as an association list with first-match lookup. -/
structure Response where
  status : Int
  body : String
  headers : Option (List (String × String))
  link_header_processor : String → PageHeader
  time_to_ratelimit_reset : Seconds
  remaining_requests : Nat

/-- `Response::new` (src/io.rs).  The Rust constructor reads the clock
through `now_epoch_seconds()`; the construction time is passed explicitly
as `now`. -/
def Response.new (now : Nat) : Response :=
  { status := 0
    body := ""
    headers := none
    link_header_processor := parse_link_headers
    time_to_ratelimit_reset := Seconds.new now + Seconds.new 60
    remaining_requests := 80 }

/-- `Response::with_header_processor`. -/
def Response.with_header_processor (r : Response)
    (processor : String → PageHeader) : Response :=
  { r with link_header_processor := processor }

/-- `Response::with_status`. -/
def Response.with_status (r : Response) (status : Int) : Response :=
  { r with status := status }

/-- `Response::with_body`. -/
def Response.with_body (r : Response) (output : String) : Response :=
  { r with body := output }

/-- `Response::with_headers`. -/
def Response.with_headers (r : Response) (headers : List (String × String)) : Response :=
  { r with headers := some headers }

/-- `Response::header`: exact-key lookup in the header map. -/
def Response.header (r : Response) (key : String) : Option String :=
  match r.headers with
  | some h => List.lookup key h
  | none => none

/-- `Response::get_page_headers` (src/io.rs). -/
def Response.get_page_headers (r : Response) : Option PageHeader :=
  match r.headers with
  | some headers =>
    match List.lookup LINK_HEADER headers with
    | some link => some (r.link_header_processor link)
    | none => none
  | none => none

/-- `Response::get_ratelimit_headers` (src/io.rs): start from the derived
`RateLimitHeader` default, patch `remaining` from the first vendor family
whose remaining key is present (GitHub first, then GitLab), patch `reset`
from that family's reset key only when it is present, and fall back to
the response's precomputed defaults on numeric parse failures.  When
neither family's remaining key is present, return `none`. -/
def Response.get_ratelimit_headers (r : Response) : Option RateLimitHeader :=
  match r.headers with
  | some headers =>
    match List.lookup GITHUB_RATELIMIT_REMAINING headers with
    | some github_remaining =>
      let remaining := (parseUnsigned 32 github_remaining).getD r.remaining_requests
      let reset :=
        match List.lookup GITHUB_RATELIMIT_RESET headers with
        | some github_reset =>
          Seconds.new ((parseUnsigned 64 github_reset).getD r.time_to_ratelimit_reset)
        | none => RateLimitHeader.default.reset
      some { RateLimitHeader.default with remaining := remaining, reset := reset }
    | none =>
      match List.lookup GITLAB_RATELIMIT_REMAINING headers with
      | some gitlab_remaining =>
        let remaining := (parseUnsigned 32 gitlab_remaining).getD r.remaining_requests
        let reset :=
          match List.lookup GITLAB_RATELIMIT_RESET headers with
          | some gitlab_reset =>
            Seconds.new ((parseUnsigned 64 gitlab_reset).getD r.time_to_ratelimit_reset)
          | none => RateLimitHeader.default.reset
        some { RateLimitHeader.default with remaining := remaining, reset := reset }
      | none => none
  | none => none

/-- `Response::get_etag`. -/
def Response.get_etag (r : Response) : Option String :=
  r.header "etag"

/-- Modelled from the spec: the `Cmd<T>` alias (crate root, not under
`src/`): a boxed zero-argument operation yielding a tagged success value
or a failure. -/
def Cmd (T : Type) : Type := Unit → Except String T

/-- Run one command to its single completion. -/
def runCmd {T : Type} (c : Cmd T) : Except String T :=
  c ()

namespace exec

/-- Modelled from the spec: `exec::parallel_stream` is not under `src/`.
Design note §9: "launch all tasks, join on all completions into a
fixed-size, index-addressed result array, then scan in order".  The
`completion` list is the order in which the commands happen to finish;
joining writes each finished command's result into its own submission
slot. -/
def joinCompletions {T : Type} (cmds : List (Cmd T)) (completion : List Nat) :
    Nat → Option (Except String T) :=
  completion.foldl
    (fun slots i => fun j =>
      if j = i then (cmds.get? i).map runCmd else slots j)
    (fun _ => none)

/-- Modelled from the spec: `exec::parallel_stream` is not under `src/`.
Spec §4.4: every command starts and runs to completion; the output is an
ordered collection of results, one per command, in submission order
regardless of completion order.  The slots of commands absent from
`completion` (impossible for a genuine completion order) surface as a
failure so that they cannot be mistaken for a success. -/
def parallel_stream {T : Type} (cmds : List (Cmd T)) (completion : List Nat) :
    List (Except String T) :=
  (List.range cmds.length).map fun i =>
    (joinCompletions cmds completion i).getD (Except.error "command did not complete")

end exec

namespace merge_request

/-- `merge_request::MergeRequestBody` (src/merge_request.rs). -/
structure MergeRequestBody where
  repo : git.Repo
  project : remote.Project
  members : List remote.Member
deriving DecidableEq

/-- The result-consumption loop of `get_repo_project_info`
(src/merge_request.rs): iterate the ordered results, patching the running
`project`/`members`/`repo` state on the consumed tags, skipping every
other tag, and bailing with the first error found.  The final builder
`MergeRequestBodyBuilder::default().repo(..).project(..).members(..).build()`
cannot fail because all three fields are set, so it is modelled as plain
construction. -/
def foldCmdResults : List (Except String CmdInfo) → remote.Project →
    List remote.Member → git.Repo → Except String MergeRequestBody
  | [], project, members, repo =>
    Except.ok { repo := repo, project := project, members := members }
  | cmd_result :: rest, project, members, repo =>
    match cmd_result with
    | Except.ok (CmdInfo.Project project_data) =>
      foldCmdResults rest project_data members repo
    | Except.ok (CmdInfo.Members members_data) =>
      foldCmdResults rest project members_data repo
    | Except.ok (CmdInfo.StatusModified status) =>
      foldCmdResults rest project members (repo.with_status status)
    | Except.ok (CmdInfo.Branch branch) =>
      foldCmdResults rest project members (repo.with_branch branch)
    | Except.ok (CmdInfo.LastCommitSummary title) =>
      foldCmdResults rest project members (repo.with_title title)
    | Except.ok (CmdInfo.LastCommitMessage message) =>
      foldCmdResults rest project members (repo.with_last_commit_message message)
    | Except.error e => Except.error e
    | Except.ok _ => foldCmdResults rest project members repo

/-- `merge_request::get_repo_project_info` (src/merge_request.rs): run the
batch through the executor and fold the ordered results, starting from
`Project::default()`, an empty members vector and `Repo::default()`.  The
`completion` argument is the completion order of the parallel run (see
`exec.parallel_stream`). -/
def get_repo_project_info (cmds : List (Cmd CmdInfo)) (completion : List Nat) :
    Except String MergeRequestBody :=
  let cmd_results := exec.parallel_stream cmds completion
  foldCmdResults cmd_results remote.Project.default [] git.Repo.default

end merge_request

/-- The continuation-header entry `<url>; rel="rel"` (§4.1: the convention
shared by the supported vendors), used as concrete input shape for the
page-cursor claims. -/
def mkEntry (url rel : String) : String :=
  "<" ++ url ++ ">; rel=\"" ++ rel ++ "\""

/-- A `rel="next"` url whose query string carries both a `per_page`
parameter (value `d1`) and a standalone `page` parameter (value `d2`). -/
def perPageUrl (d1 d2 : List Char) : String :=
  "http://localhost?per_page=" ++ d1.asString ++ "&page=" ++ d2.asString

/-- One successful command's tagged contribution to the composite
merge-request state (project, members, repository facts), as the spec's
fold consumes it: consumed tags patch their component, all other tags are
skipped. -/
def applyCmdInfo (s : remote.Project × List remote.Member × git.Repo)
    (info : CmdInfo) : remote.Project × List remote.Member × git.Repo :=
  match info with
  | CmdInfo.Project p => (p, s.2.1, s.2.2)
  | CmdInfo.Members m => (s.1, m, s.2.2)
  | CmdInfo.StatusModified b => (s.1, s.2.1, s.2.2.with_status b)
  | CmdInfo.Branch b => (s.1, s.2.1, s.2.2.with_branch b)
  | CmdInfo.LastCommitSummary t => (s.1, s.2.1, s.2.2.with_title t)
  | CmdInfo.LastCommitMessage m => (s.1, s.2.1, s.2.2.with_last_commit_message m)
  | _ => s

/-- The composite value a failure-free batch folds to: every successful
command's tagged contribution applied in submission order, starting from
the defaults. -/
def composeBody (infos : List CmdInfo) : merge_request.MergeRequestBody :=
  let s := infos.foldl applyCmdInfo (remote.Project.default, [], git.Repo.default)
  { repo := s.2.2, project := s.1, members := s.2.1 }

/-- The payloads of the successful slots of a result collection, in
order. -/
def okValues (rs : List (Except String CmdInfo)) : List CmdInfo :=
  rs.filterMap fun r =>
    match r with
    | Except.ok v => some v
    | Except.error _ => none

/-- Whether `get_repo_project_info`'s fold consumes a tag (patches state
from it); every other tag is silently skipped. -/
def consumedTag : CmdInfo → Bool
  | CmdInfo.Project _ => true
  | CmdInfo.Members _ => true
  | CmdInfo.StatusModified _ => true
  | CmdInfo.Branch _ => true
  | CmdInfo.LastCommitSummary _ => true
  | CmdInfo.LastCommitMessage _ => true
  | _ => false

theorem findUrlEntriesAux_nil (fuel : Nat) : findUrlEntriesAux fuel [] = [] := by
  cases fuel <;> rfl

theorem findPageCapturesAux_nil (fuel : Nat) : findPageCapturesAux fuel [] = [] := by
  cases fuel <;> rfl

theorem findUrlEntries_cons_none {c : Char} {rest : List Char}
    (h : matchUrlEntryAt (c :: rest) = none) :
    findUrlEntries (c :: rest) = findUrlEntries rest := by
  simp only [findUrlEntries, List.length_cons, findUrlEntriesAux, h]

theorem findUrlEntries_cons_some_nil {c : Char} {rest : List Char}
    {entry : String × String} (h : matchUrlEntryAt (c :: rest) = some (entry, [])) :
    findUrlEntries (c :: rest) = [entry] := by
  simp only [findUrlEntries, List.length_cons, findUrlEntriesAux, h,
    findUrlEntriesAux_nil]

theorem findPageCaptures_cons_none {c : Char} {rest : List Char}
    (h : matchPageAt (c :: rest) = none) :
    findPageCaptures (c :: rest) = findPageCaptures rest := by
  simp only [findPageCaptures, List.length_cons, findPageCapturesAux, h]

theorem findPageCaptures_cons_some_nil {c : Char} {rest : List Char}
    {cap : String} (h : matchPageAt (c :: rest) = some (cap, [])) :
    findPageCaptures (c :: rest) = [cap] := by
  simp only [findPageCaptures, List.length_cons, findPageCapturesAux, h,
    findPageCapturesAux_nil]

theorem stripLit_self (ls cs : List Char) : stripLit ls (ls ++ cs) = some cs := by
  induction ls with
  | nil => rfl
  | cons l ls ih => simp [stripLit, ih]

theorem splitAtChar_append (stop : Char) (pre post : List Char)
    (h : ∀ c ∈ pre, c ≠ stop) :
    splitAtChar stop (pre ++ stop :: post) = some (pre, post) := by
  induction pre with
  | nil => simp [splitAtChar]
  | cons c pre ih =>
    have hc : c ≠ stop := h c (by simp)
    simp [splitAtChar, hc, ih fun d hd => h d (by simp [hd])]

theorem data_mkEntry (url rel : String) :
    (mkEntry url rel).data
      = '<' :: (url.data ++ '>' :: ';' :: ' ' :: 'r' :: 'e' :: 'l' :: '=' :: '"' ::
          (rel.data ++ [ '"' ])) := by
  simp [mkEntry, String.data_append]

theorem matchUrlEntryAt_mkEntry (url rel : String)
    (hu : url.data ≠ []) (hgt : ∀ c ∈ url.data, c ≠ '>')
    (hr : rel.data ≠ []) (hq : ∀ c ∈ rel.data, c ≠ '"') :
    matchUrlEntryAt (mkEntry url rel).data = some ((url, rel), []) := by
  rw [data_mkEntry]
  have hue : url.data.isEmpty = false := by
    cases hd : url.data with
    | nil => exact absurd hd hu
    | cons a l => rfl
  have hre : rel.data.isEmpty = false := by
    cases hd : rel.data with
    | nil => exact absurd hd hr
    | cons a l => rfl
  have hsplit1 :
      splitAtChar '>' (url.data ++ '>' :: ';' :: ' ' :: 'r' :: 'e' :: 'l' :: '=' :: '"' ::
          (rel.data ++ [ '"' ]))
        = some (url.data, ';' :: ' ' :: 'r' :: 'e' :: 'l' :: '=' :: '"' ::
          (rel.data ++ [ '"' ])) :=
    splitAtChar_append '>' url.data _ hgt
  have hstrip :
      stripLit [ 'r', 'e', 'l', '=', '"' ]
          ('r' :: 'e' :: 'l' :: '=' :: '"' :: (rel.data ++ [ '"' ]))
        = some (rel.data ++ [ '"' ]) :=
    stripLit_self [ 'r', 'e', 'l', '=', '"' ] (rel.data ++ [ '"' ])
  have hsplit2 : splitAtChar '"' (rel.data ++ [ '"' ]) = some (rel.data, []) :=
    splitAtChar_append '"' rel.data [] hq
  have hdrop :
      List.dropWhile isWhitespaceChar
          (' ' :: 'r' :: 'e' :: 'l' :: '=' :: '"' :: (rel.data ++ [ '"' ]))
        = 'r' :: 'e' :: 'l' :: '=' :: '"' :: (rel.data ++ [ '"' ]) := by
    rw [List.dropWhile_cons_of_pos (by decide), List.dropWhile_cons_of_neg (by decide)]
  simp only [matchUrlEntryAt, hsplit1, hue, hdrop, hstrip, hsplit2, hre]
  rfl

theorem findUrlEntries_mkEntry (url rel : String)
    (hu : url.data ≠ []) (hgt : ∀ c ∈ url.data, c ≠ '>')
    (hr : rel.data ≠ []) (hq : ∀ c ∈ rel.data, c ≠ '"') :
    findUrlEntries (mkEntry url rel).data = [(url, rel)] := by
  have hm := matchUrlEntryAt_mkEntry url rel hu hgt hr hq
  rw [data_mkEntry] at hm ⊢
  exact findUrlEntries_cons_some_nil hm

theorem applyLinkEntry_next (ph : PageHeader) (url : String) (d : String)
    (hpc : findPageCaptures url.data = [d]) :
    applyLinkEntry ph (url, NEXT) = { ph with next := some (Page.new url (pageNumberOf d)) } := by
  simp only [applyLinkEntry, hpc]
  rw [if_neg (by decide : ¬ NEXT = LAST), if_pos trivial]
  rfl

theorem applyLinkEntry_last (ph : PageHeader) (url : String) (d : String)
    (hpc : findPageCaptures url.data = [d]) :
    applyLinkEntry ph (url, LAST) = { ph with last := some (Page.new url (pageNumberOf d)) } := by
  simp only [applyLinkEntry, hpc]
  rw [if_pos trivial, if_neg (by decide : ¬ LAST = NEXT)]
  rfl

theorem parse_link_headers_mkEntry_next (url d : String)
    (hu : url.data ≠ []) (hgt : ∀ c ∈ url.data, c ≠ '>')
    (hpc : findPageCaptures url.data = [d]) :
    parse_link_headers (mkEntry url NEXT)
      = { next := some (Page.new url (pageNumberOf d)), last := none } := by
  unfold parse_link_headers
  rw [findUrlEntries_mkEntry url NEXT hu hgt (by decide) (by decide)]
  rw [List.foldl_cons, List.foldl_nil, applyLinkEntry_next PageHeader.new url d hpc]
  rfl

theorem parse_link_headers_mkEntry_last (url d : String)
    (hu : url.data ≠ []) (hgt : ∀ c ∈ url.data, c ≠ '>')
    (hpc : findPageCaptures url.data = [d]) :
    parse_link_headers (mkEntry url LAST)
      = { next := none, last := some (Page.new url (pageNumberOf d)) } := by
  unfold parse_link_headers
  rw [findUrlEntries_mkEntry url LAST hu hgt (by decide) (by decide)]
  rw [List.foldl_cons, List.foldl_nil, applyLinkEntry_last PageHeader.new url d hpc]
  rfl

/-- Claim C4: for every continuation header consisting of a valid entry
`<url>; rel="next"` whose url carries a parsable page number,
`parse_link_headers` sets `PageHeader.next` to `Page{url, number}` while
`last` stays unset, and for the analogous `rel="last"` entry it sets
`PageHeader.last` while `next` stays unset. -/
theorem c4_next_last_extraction (url d : String) (n : Nat)
    (hu : url.data ≠ []) (hgt : ∀ c ∈ url.data, c ≠ '>')
    (hpc : findPageCaptures url.data = [d])
    (hn : parseUnsigned 32 d = some n) :
    parse_link_headers (mkEntry url NEXT)
      = { next := some (Page.new url n), last := none }
    ∧ parse_link_headers (mkEntry url LAST)
      = { next := none, last := some (Page.new url n) } := by
  have hpn : pageNumberOf d = n := by simp [pageNumberOf, hn]
  exact ⟨by rw [parse_link_headers_mkEntry_next url d hu hgt hpc, hpn],
         by rw [parse_link_headers_mkEntry_last url d hu hgt hpc, hpn]⟩

theorem c4_witness :
    parse_link_headers (mkEntry "https://api.github.com/repositories/1/issues?page=2" NEXT)
      = { next := some (Page.new "https://api.github.com/repositories/1/issues?page=2" 2),
          last := none }
    ∧ parse_link_headers (mkEntry "https://api.github.com/repositories/1/issues?page=2" LAST)
      = { next := none,
          last := some (Page.new "https://api.github.com/repositories/1/issues?page=2" 2) } :=
  c4_next_last_extraction "https://api.github.com/repositories/1/issues?page=2" "2" 2
    (by decide) (by decide) (by decide) (by decide)

/-- Claim C6: for every continuation entry with `rel="next"` or
`rel="last"` whose url contains a page parameter with an unparsable page
number (one that overflows `u32`), `parse_link_headers` sets the
corresponding `Page` with page number 0 instead of failing the parse. -/
theorem c6_unparsable_page_number_zero (url d : String)
    (hu : url.data ≠ []) (hgt : ∀ c ∈ url.data, c ≠ '>')
    (hpc : findPageCaptures url.data = [d])
    (hbad : parseUnsigned 32 d = none) :
    parse_link_headers (mkEntry url NEXT)
      = { next := some (Page.new url 0), last := none }
    ∧ parse_link_headers (mkEntry url LAST)
      = { next := none, last := some (Page.new url 0) } := by
  have hpn : pageNumberOf d = 0 := by simp [pageNumberOf, hbad]
  exact ⟨by rw [parse_link_headers_mkEntry_next url d hu hgt hpc, hpn],
         by rw [parse_link_headers_mkEntry_last url d hu hgt hpc, hpn]⟩

theorem c6_witness :
    parse_link_headers (mkEntry "http://a?page=99999999999" NEXT)
      = { next := some (Page.new "http://a?page=99999999999" 0), last := none }
    ∧ parse_link_headers (mkEntry "http://a?page=99999999999" LAST)
      = { next := none, last := some (Page.new "http://a?page=99999999999" 0) } :=
  c6_unparsable_page_number_zero "http://a?page=99999999999" "99999999999"
    (by decide) (by decide) (by decide) (by decide)

theorem matchUrlEntryAt_ne (c : Char) (rest : List Char) (h : c ≠ '<') :
    matchUrlEntryAt (c :: rest) = none := by
  unfold matchUrlEntryAt
  split
  · next heq =>
    exact absurd (List.head_eq_of_cons_eq heq) h
  · rfl

theorem findUrlEntries_nil_of_no_lt (cs : List Char) (h : ∀ c ∈ cs, c ≠ '<') :
    findUrlEntries cs = [] := by
  induction cs with
  | nil => rfl
  | cons c rest ih =>
    rw [findUrlEntries_cons_none (matchUrlEntryAt_ne c rest (h c (by simp)))]
    exact ih fun d hd => h d (by simp [hd])

/-- Claim C5: pagination-header handling never fails a read.  A response
with no headers at all, or whose header map has no `link` key, yields
`none` (pagination unknown); a response whose `link` header value is
malformed text (no `<`-delimited entry at all) degrades to an empty
`PageHeader` with both fields unset, which is distinguishable from a
named page with number 0; no case is an error. -/
theorem c5_page_headers_never_fail :
    (∀ now : Nat, (Response.new now).get_page_headers = none)
    ∧ (∀ (now : Nat) (hs : List (String × String)),
        List.lookup LINK_HEADER hs = none →
        ((Response.new now).with_headers hs).get_page_headers = none)
    ∧ (∀ (now : Nat) (hs : List (String × String)) (link : String),
        List.lookup LINK_HEADER hs = some link →
        (∀ c ∈ link.data, c ≠ '<') →
        ((Response.new now).with_headers hs).get_page_headers
          = some { next := none, last := none })
    ∧ (∀ url : String,
        ({ next := none, last := none } : PageHeader)
          ≠ { next := some (Page.new url 0), last := none }) := by
  refine ⟨fun now => rfl, ?_, ?_, ?_⟩
  · intro now hs h
    simp [Response.get_page_headers, Response.with_headers, h]
  · intro now hs link h hlt
    have hparse : parse_link_headers link = { next := none, last := none } := by
      unfold parse_link_headers
      rw [findUrlEntries_nil_of_no_lt link.data hlt]
      rfl
    simp [Response.get_page_headers, Response.with_headers, Response.new, h, hparse]
  · intro url
    simp

theorem c5_witness :
    ((Response.new 1700000000).with_headers
        [ ( "link", "malformed ; not a continuation header") ]).get_page_headers
      = some { next := none, last := none } :=
  c5_page_headers_never_fail.2.2.1 1700000000
    [ ( "link", "malformed ; not a continuation header") ]
    "malformed ; not a continuation header" (by decide) (by decide)

/-- Claim C3: `get_ratelimit_headers` checks the GitHub family key first
and the GitLab family key second, with exact lower-case lookup: the
GitHub pair `x-ratelimit-remaining=30`/`x-ratelimit-reset=1658602270`
yields remaining 30 and reset 1658602270; the GitLab pair
`ratelimit-remaining=30`/`ratelimit-reset=1658602270` yields the
identical result; a map whose only rate-limit keys use the unrecognized
casing `RateLimit-remaining`/`rateLimit-reset` yields `none`; and when
both families are present the GitHub family wins. -/
theorem c3_ratelimit_family_lookup (now : Nat) :
    ((Response.new now).with_headers
        [ ( "x-ratelimit-remaining", "30"),
          ( "x-ratelimit-reset", "1658602270") ]).get_ratelimit_headers
      = some (RateLimitHeader.new 30 (Seconds.new 1658602270))
    ∧ ((Response.new now).with_headers
        [ ( "ratelimit-remaining", "30"),
          ( "ratelimit-reset", "1658602270") ]).get_ratelimit_headers
      = some (RateLimitHeader.new 30 (Seconds.new 1658602270))
    ∧ ((Response.new now).with_headers
        [ ( "RateLimit-remaining", "30"),
          ( "rateLimit-reset", "1658602270") ]).get_ratelimit_headers
      = none
    ∧ ((Response.new now).with_headers
        [ ( "x-ratelimit-remaining", "30"),
          ( "x-ratelimit-reset", "1658602270"),
          ( "ratelimit-remaining", "7"),
          ( "ratelimit-reset", "99") ]).get_ratelimit_headers
      = some (RateLimitHeader.new 30 (Seconds.new 1658602270)) := by
  refine ⟨?_, ?_, ?_, ?_⟩ <;> rfl

theorem c3_witness :
    ((Response.new 1658600000).with_headers
        [ ( "x-ratelimit-remaining", "30"),
          ( "x-ratelimit-reset", "1658602270") ]).get_ratelimit_headers
      = some (RateLimitHeader.new 30 (Seconds.new 1658602270))
    ∧ ((Response.new 1658600000).with_headers
        [ ( "ratelimit-remaining", "30"),
          ( "ratelimit-reset", "1658602270") ]).get_ratelimit_headers
      = some (RateLimitHeader.new 30 (Seconds.new 1658602270))
    ∧ ((Response.new 1658600000).with_headers
        [ ( "RateLimit-remaining", "30"),
          ( "rateLimit-reset", "1658602270") ]).get_ratelimit_headers
      = none
    ∧ ((Response.new 1658600000).with_headers
        [ ( "x-ratelimit-remaining", "30"),
          ( "x-ratelimit-reset", "1658602270"),
          ( "ratelimit-remaining", "7"),
          ( "ratelimit-reset", "99") ]).get_ratelimit_headers
      = some (RateLimitHeader.new 30 (Seconds.new 1658602270)) :=
  c3_ratelimit_family_lookup 1658600000

/-- Claim C8 counterexample: a response built at construction time 100
whose headers hold the GitHub remaining key `30` but no paired reset key
reports reset 0 (the derived `RateLimitHeader` default), not the claimed
default reset horizon 100 + 60. -/
theorem c8_counterexample :
    ((Response.new 100).with_headers
        [ ( "x-ratelimit-remaining", "30") ]).get_ratelimit_headers
      = some (RateLimitHeader.new 30 (Seconds.new 0))
    ∧ ((Response.new 100).with_headers
        [ ( "x-ratelimit-remaining", "30") ]).get_ratelimit_headers
      ≠ some (RateLimitHeader.new 30 (Seconds.new 100 + Seconds.new 60)) :=
  ⟨rfl, by decide⟩

/-- Claim C8 amended: for every response whose headers contain a vendor
family's remaining key with a parsable value but not that family's paired
reset key, `get_ratelimit_headers` returns the remaining value from the
header together with reset 0, the derived `RateLimitHeader` default; the
construction-time-plus-60 default horizon is used only as the fallback
when a present reset value fails to parse. -/
theorem c8_amended_reset_stays_default (now : Nat) (hs : List (String × String))
    (v : String) (n : Nat) :
    (List.lookup GITHUB_RATELIMIT_REMAINING hs = some v →
      parseUnsigned 32 v = some n →
      List.lookup GITHUB_RATELIMIT_RESET hs = none →
      ((Response.new now).with_headers hs).get_ratelimit_headers
        = some (RateLimitHeader.new n (Seconds.new 0)))
    ∧ (List.lookup GITHUB_RATELIMIT_REMAINING hs = none →
      List.lookup GITLAB_RATELIMIT_REMAINING hs = some v →
      parseUnsigned 32 v = some n →
      List.lookup GITLAB_RATELIMIT_RESET hs = none →
      ((Response.new now).with_headers hs).get_ratelimit_headers
        = some (RateLimitHeader.new n (Seconds.new 0)))
    ∧ (List.lookup GITHUB_RATELIMIT_REMAINING hs = some v →
      parseUnsigned 32 v = some n →
      List.lookup GITHUB_RATELIMIT_RESET hs = some "not-a-number" →
      ((Response.new now).with_headers hs).get_ratelimit_headers
        = some (RateLimitHeader.new n (Seconds.new now + Seconds.new 60))) := by
  refine ⟨?_, ?_, ?_⟩
  · intro h1 h2 h3
    simp [Response.get_ratelimit_headers, Response.with_headers, Response.new,
      h1, h2, h3, RateLimitHeader.new, RateLimitHeader.default, Seconds.new]
  · intro h0 h1 h2 h3
    simp [Response.get_ratelimit_headers, Response.with_headers, Response.new,
      h0, h1, h2, h3, RateLimitHeader.new, RateLimitHeader.default, Seconds.new]
  · intro h1 h2 h3
    simp [Response.get_ratelimit_headers, Response.with_headers, Response.new,
      h1, h2, h3, RateLimitHeader.new, RateLimitHeader.default, Seconds.new]
    rfl

theorem c8_witness :
    ((Response.new 100).with_headers
        [ ( "x-ratelimit-remaining", "30") ]).get_ratelimit_headers
      = some (RateLimitHeader.new 30 (Seconds.new 0))
    ∧ ((Response.new 100).with_headers
        [ ( "ratelimit-remaining", "25") ]).get_ratelimit_headers
      = some (RateLimitHeader.new 25 (Seconds.new 0)) :=
  ⟨(c8_amended_reset_stays_default 100 [ ( "x-ratelimit-remaining", "30") ] "30" 30).1
      (by decide) (by decide) (by decide),
   (c8_amended_reset_stays_default 100 [ ( "ratelimit-remaining", "25") ] "25" 25).2.1
      (by decide) (by decide) (by decide) (by decide)⟩

/-- Claim C9 counterexample: a response built at construction time 100
whose headers contain no vendor rate-limit family yields `none` from
`get_ratelimit_headers`, not a defaults-carrying header with remaining 80
and reset 100 + 60. -/
theorem c9_counterexample :
    ((Response.new 100).with_headers
        [ ( "content-type", "application/json") ]).get_ratelimit_headers = none
    ∧ ((Response.new 100).with_headers
        [ ( "content-type", "application/json") ]).get_ratelimit_headers
      ≠ some (RateLimitHeader.new 80 (Seconds.new 100 + Seconds.new 60)) :=
  ⟨rfl, by decide⟩

/-- Claim C9 amended: when no vendor rate-limit header family is present
(including when the response has no header map at all)
`get_ratelimit_headers` reports no rate-limit information (`none`), which
is not an error; the defaults remaining 80 and reset construction time
plus 60 seconds are applied only as fallbacks when a family's key is
present but its numeric value fails to parse. -/
theorem c9_amended_no_family_is_none :
    (∀ (now : Nat) (hs : List (String × String)),
      List.lookup GITHUB_RATELIMIT_REMAINING hs = none →
      List.lookup GITLAB_RATELIMIT_REMAINING hs = none →
      ((Response.new now).with_headers hs).get_ratelimit_headers = none)
    ∧ (∀ now : Nat, (Response.new now).get_ratelimit_headers = none)
    ∧ (∀ now : Nat,
      ((Response.new now).with_headers
          [ ( "x-ratelimit-remaining", "a lot"),
            ( "x-ratelimit-reset", "later") ]).get_ratelimit_headers
        = some (RateLimitHeader.new 80 (Seconds.new now + Seconds.new 60))) := by
  refine ⟨?_, fun now => rfl, fun now => rfl⟩
  intro now hs h1 h2
  simp [Response.get_ratelimit_headers, Response.with_headers, h1, h2]

theorem c9_witness :
    ((Response.new 100).with_headers [ ( "etag", "abc123") ]).get_ratelimit_headers = none
    ∧ (Response.new 100).get_ratelimit_headers = none
    ∧ ((Response.new 100).with_headers
        [ ( "x-ratelimit-remaining", "a lot"),
          ( "x-ratelimit-reset", "later") ]).get_ratelimit_headers
      = some (RateLimitHeader.new 80 (Seconds.new 100 + Seconds.new 60)) :=
  ⟨c9_amended_no_family_is_none.1 100 [ ( "etag", "abc123") ] (by decide) (by decide),
   c9_amended_no_family_is_none.2.1 100,
   c9_amended_no_family_is_none.2.2 100⟩

theorem joinCompletions_apply {T : Type} (cmds : List (Cmd T)) (l : List Nat) (j : Nat) :
    exec.joinCompletions cmds l j
      = if j ∈ l then (cmds.get? j).map runCmd else none := by
  unfold exec.joinCompletions
  suffices hgen : ∀ (acc : Nat → Option (Except String T)),
      List.foldl
        (fun slots i => fun j2 => if j2 = i then (cmds.get? i).map runCmd else slots j2)
        acc l j
      = if j ∈ l then (cmds.get? j).map runCmd else acc j from hgen _
  induction l with
  | nil => intro acc; simp
  | cons i l ih =>
    intro acc
    rw [List.foldl_cons, ih]
    by_cases hl : j ∈ l
    · simp [hl]
    · by_cases hi : j = i
      · subst hi
        simp [hl]
      · simp [hl, hi, List.mem_cons]

theorem parallel_stream_eq {T : Type} (cmds : List (Cmd T)) (completion : List Nat)
    (hc : ∀ i, i < cmds.length → i ∈ completion) :
    exec.parallel_stream cmds completion = cmds.map runCmd := by
  apply List.ext_get?
  intro i
  unfold exec.parallel_stream
  rw [List.get?_map, List.get?_map]
  by_cases hi : i < cmds.length
  · rw [List.get?_range hi, Option.map_some', joinCompletions_apply,
      if_pos (hc i hi), List.get?_eq_get hi]
    rfl
  · rw [List.get?_eq_none.2 (by simpa [Nat.not_lt] using hi),
      List.get?_eq_none.2 (by simpa [Nat.not_lt] using hi)]
    rfl

/-- Claim C2: for every batch of commands and every completion order that
completes each submitted command, the executor returns exactly one result
per submitted command, in submission order regardless of completion
order — the result collection is the submission-ordered list of each
command's own outcome — and each slot holds a success or a failure but
never both. -/
theorem c2_executor_submission_order {T : Type}
    (cmds : List (Cmd T)) (completion : List Nat)
    (hc : ∀ i, i < cmds.length → i ∈ completion) :
    exec.parallel_stream cmds completion = cmds.map runCmd
    ∧ (exec.parallel_stream cmds completion).length = cmds.length
    ∧ (∀ (k : Nat) (c : Cmd T), cmds.get? k = some c →
        (exec.parallel_stream cmds completion).get? k = some (runCmd c))
    ∧ (∀ r ∈ exec.parallel_stream cmds completion,
        ((∃ v, r = Except.ok v) ↔ ¬ ∃ e, r = Except.error e)) := by
  have heq := parallel_stream_eq cmds completion hc
  refine ⟨heq, by rw [heq]; exact List.length_map cmds runCmd, ?_, ?_⟩
  · intro k c hk
    rw [heq, List.get?_map, hk]
    rfl
  · intro r _
    cases r with
    | ok v => simp
    | error e => simp

theorem c2_witness :
    exec.parallel_stream
        [ fun _ => Except.ok CmdInfo.Ignore, fun _ => Except.error "boom" ] [ 1, 0 ]
      = [ Except.ok CmdInfo.Ignore, Except.error "boom" ] := by
  rw [(c2_executor_submission_order
    [ fun _ => Except.ok CmdInfo.Ignore, fun _ => Except.error "boom" ] [ 1, 0 ]
    (by decide)).1]
  rfl

theorem foldCmdResults_first_error :
    ∀ (rs : List (Except String CmdInfo)) (k : Nat) (e : String)
      (p : remote.Project) (m : List remote.Member) (r : git.Repo),
      rs.get? k = some (Except.error e) →
      (∀ j, j < k → ∃ v, rs.get? j = some (Except.ok v)) →
      merge_request.foldCmdResults rs p m r = Except.error e := by
  intro rs
  induction rs with
  | nil => intro k e p m r hk _; simp at hk
  | cons hd tl ih =>
    intro k e p m r hk hpre
    cases k with
    | zero =>
      rw [List.get?_cons_zero] at hk
      obtain rfl : hd = Except.error e := Option.some.inj hk
      rfl
    | succ k' =>
      obtain ⟨v, hv⟩ := hpre 0 (Nat.succ_pos k')
      rw [List.get?_cons_zero] at hv
      obtain rfl : hd = Except.ok v := Option.some.inj hv
      have hk' : tl.get? k' = some (Except.error e) := by simpa using hk
      have hpre' : ∀ j, j < k' → ∃ w, tl.get? j = some (Except.ok w) := by
        intro j hj
        simpa using hpre (j + 1) (Nat.succ_lt_succ hj)
      cases v <;> exact ih k' e _ _ _ hk' hpre'

theorem foldCmdResults_all_ok :
    ∀ (rs : List (Except String CmdInfo)) (p : remote.Project)
      (m : List remote.Member) (r : git.Repo),
      (∀ x ∈ rs, ∃ v, x = Except.ok v) →
      merge_request.foldCmdResults rs p m r
        = Except.ok
            { repo := ((okValues rs).foldl applyCmdInfo (p, m, r)).2.2,
              project := ((okValues rs).foldl applyCmdInfo (p, m, r)).1,
              members := ((okValues rs).foldl applyCmdInfo (p, m, r)).2.1 } := by
  intro rs
  induction rs with
  | nil => intro p m r _; rfl
  | cons hd tl ih =>
    intro p m r h
    obtain ⟨v, rfl⟩ := h hd (by simp)
    have htl : ∀ x ∈ tl, ∃ w, x = Except.ok w := fun x hx => h x (by simp [hx])
    have hok : okValues (Except.ok v :: tl) = v :: okValues tl := by
      simp [okValues]
    rw [hok]
    cases v <;> rw [List.foldl_cons] <;>
      exact (ih _ _ _ htl).trans (by rfl)

/-- Claim C1: for every ordered batch handed to `get_repo_project_info`
(over any completion order that completes every command), if the result
of command `k` is the first failure in submission order then the function
returns exactly that failure, even if a command at a later index also
fails; and when no command fails it returns the `MergeRequestBody`
composed from each successful command's tagged contribution in
submission order. -/
theorem c1_first_failure_reported (cmds : List (Cmd CmdInfo)) (completion : List Nat)
    (hc : ∀ i, i < cmds.length → i ∈ completion) :
    (∀ (k : Nat) (e : String),
      (cmds.map runCmd).get? k = some (Except.error e) →
      (∀ j, j < k → ∃ v, (cmds.map runCmd).get? j = some (Except.ok v)) →
      merge_request.get_repo_project_info cmds completion = Except.error e)
    ∧ ((∀ x ∈ cmds.map runCmd, ∃ v, x = Except.ok v) →
      merge_request.get_repo_project_info cmds completion
        = Except.ok (composeBody (okValues (cmds.map runCmd)))) := by
  have heq := parallel_stream_eq cmds completion hc
  constructor
  · intro k e hk hpre
    unfold merge_request.get_repo_project_info
    rw [heq]
    exact foldCmdResults_first_error _ k e _ _ _ hk hpre
  · intro hall
    unfold merge_request.get_repo_project_info
    rw [heq, foldCmdResults_all_ok _ _ _ _ hall]
    rfl

theorem c1_witness :
    merge_request.get_repo_project_info
        [ fun _ => Except.ok (CmdInfo.Branch "feature"),
          fun _ => Except.error "first failure",
          fun _ => Except.error "second failure" ] [ 2, 0, 1 ]
      = Except.error "first failure" :=
  (c1_first_failure_reported
      [ fun _ => Except.ok (CmdInfo.Branch "feature"),
        fun _ => Except.error "first failure",
        fun _ => Except.error "second failure" ] [ 2, 0, 1 ] (by decide)).1
    1 "first failure" rfl
    (by
      intro j hj
      have hj0 : j = 0 := by omega
      subst hj0
      exact ⟨CmdInfo.Branch "feature", rfl⟩)

theorem foldCmdResults_unconsumed :
    ∀ (rs : List (Except String CmdInfo)) (p : remote.Project)
      (m : List remote.Member) (r : git.Repo),
      (∀ x ∈ rs, ∃ v, x = Except.ok v ∧ consumedTag v = false) →
      merge_request.foldCmdResults rs p m r
        = Except.ok { repo := r, project := p, members := m } := by
  intro rs
  induction rs with
  | nil => intro p m r _; rfl
  | cons hd tl ih =>
    intro p m r h
    obtain ⟨v, rfl, hv⟩ := h hd (by simp)
    have htl : ∀ x ∈ tl, ∃ w, x = Except.ok w ∧ consumedTag w = false :=
      fun x hx => h x (by simp [hx])
    cases v <;>
      first
        | exact ih p m r htl
        | exact absurd hv (by simp [consumedTag])

/-- Claim C10: a batch whose results contain no failure and none of the
consumed tags (`Project`, `Members`, `StatusModified`, `Branch`,
`LastCommitSummary`, `LastCommitMessage`) — for example only `Ignore` or
`Exit` tags, as `git fetch` produces — still succeeds, returning the
default project, an empty members list and a default repository:
unconsumed tags are silently skipped and a missing tag is never an
error. -/
theorem c10_unconsumed_tags_default (cmds : List (Cmd CmdInfo)) (completion : List Nat)
    (hc : ∀ i, i < cmds.length → i ∈ completion)
    (hall : ∀ x ∈ cmds.map runCmd, ∃ v, x = Except.ok v ∧ consumedTag v = false) :
    merge_request.get_repo_project_info cmds completion
      = Except.ok
          { repo := git.Repo.default, project := remote.Project.default, members := [] } := by
  unfold merge_request.get_repo_project_info
  rw [parallel_stream_eq cmds completion hc]
  exact foldCmdResults_unconsumed _ _ _ _ hall

theorem c10_witness :
    merge_request.get_repo_project_info
        [ fun _ => Except.ok CmdInfo.Ignore, fun _ => Except.ok CmdInfo.Exit ] [ 1, 0 ]
      = Except.ok
          { repo := git.Repo.default, project := remote.Project.default, members := [] } :=
  c10_unconsumed_tags_default
    [ fun _ => Except.ok CmdInfo.Ignore, fun _ => Except.ok CmdInfo.Exit ] [ 1, 0 ]
    (by decide)
    (by
      intro x hx
      simp only [List.map_cons, List.map_nil, List.mem_cons, List.not_mem_nil,
        or_false] at hx
      rcases hx with rfl | rfl
      · exact ⟨CmdInfo.Ignore, rfl, rfl⟩
      · exact ⟨CmdInfo.Exit, rfl, rfl⟩)

theorem matchPageAt_none_of_excluded {c : Char} (cs : List Char)
    (h : pageExcludedChar c = true) : matchPageAt (c :: cs) = none := by
  simp [matchPageAt, h]

theorem stripLit_page_none {c : Char} (cs : List Char) (h : c ≠ 'p') :
    stripLit [ 'p', 'a', 'g', 'e', '=' ] (c :: cs) = none := by
  simp [stripLit, h]

theorem matchPageAt_none_of_stripLit {c : Char} {cs : List Char}
    (h : stripLit [ 'p', 'a', 'g', 'e', '=' ] cs = none) :
    matchPageAt (c :: cs) = none := by
  unfold matchPageAt
  by_cases hc : pageExcludedChar c = true <;> simp [hc, h]

theorem stripLit_append_of_le (ls cs rest : List Char) (h : ls.length ≤ cs.length) :
    stripLit ls (cs ++ rest) = Option.map (fun r2 => r2 ++ rest) (stripLit ls cs) := by
  induction ls generalizing cs with
  | nil => simp [stripLit]
  | cons l ls ih =>
    cases cs with
    | nil => simp at h
    | cons c cs' =>
      simp only [List.cons_append, stripLit]
      by_cases hc : c = l
      · rw [if_pos hc, if_pos hc]
        exact ih cs' (by simpa using h)
      · rw [if_neg hc, if_neg hc]
        rfl

theorem stripLit_length {ls cs r : List Char} (h : stripLit ls cs = some r) :
    cs.length = ls.length + r.length := by
  induction ls generalizing cs with
  | nil =>
    simp only [stripLit] at h
    obtain rfl := Option.some.inj h
    simp
  | cons l ls ih =>
    cases cs with
    | nil => simp [stripLit] at h
    | cons c cs' =>
      simp only [stripLit] at h
      by_cases hc : c = l
      · rw [if_pos hc] at h
        have := ih h
        simp [this]
        omega
      · rw [if_neg hc] at h
        cases h

theorem matchPageAt_cons (c : Char) (cs : List Char) :
    matchPageAt (c :: cs)
      = if pageExcludedChar c = true then none
        else
          match stripLit [ 'p', 'a', 'g', 'e', '=' ] cs with
          | some rest2 =>
            let digits := rest2.takeWhile Char.isDigit
            if digits.isEmpty then none
            else some (digits.asString, rest2.drop digits.length)
          | none => none := rfl

theorem matchPageAt_append_none (l rest : List Char) (hlen : 7 ≤ l.length)
    (h : matchPageAt l = none) : matchPageAt (l ++ rest) = none := by
  cases l with
  | nil => simp at hlen
  | cons c l' =>
    rw [matchPageAt_cons] at h
    rw [List.cons_append, matchPageAt_cons]
    by_cases hc : pageExcludedChar c = true
    · rw [if_pos hc]
    · have hlen' : ([ 'p', 'a', 'g', 'e', '=' ] : List Char).length ≤ l'.length := by
        simp only [List.length_cons] at hlen ⊢
        simp only [List.length_nil]
        omega
      rw [if_neg hc] at h ⊢
      rw [stripLit_append_of_le [ 'p', 'a', 'g', 'e', '=' ] l' rest hlen']
      cases hsl : stripLit [ 'p', 'a', 'g', 'e', '=' ] l' with
      | none => rfl
      | some r2 =>
        rw [hsl] at h
        rw [Option.map_some']
        have hr2len : 1 ≤ r2.length := by
          have hl := stripLit_length hsl
          simp only [List.length_cons, List.length_nil] at hl hlen
          omega
        cases r2 with
        | nil => simp at hr2len
        | cons x r2' =>
          have hx : Char.isDigit x = false := by
            by_contra hxx
            rw [Bool.not_eq_false] at hxx
            have h' : (if ((x :: r2').takeWhile Char.isDigit).isEmpty = true then none
                else some (((x :: r2').takeWhile Char.isDigit).asString,
                  (x :: r2').drop ((x :: r2').takeWhile Char.isDigit).length)) = none := h
            rw [List.takeWhile_cons, if_pos hxx] at h'
            simp at h'
          show (if (((x :: r2') ++ rest).takeWhile Char.isDigit).isEmpty = true then none
              else some ((((x :: r2') ++ rest).takeWhile Char.isDigit).asString,
                ((x :: r2') ++ rest).drop
                  (((x :: r2') ++ rest).takeWhile Char.isDigit).length)) = none
          rw [List.cons_append, List.takeWhile_cons, if_pos (by simp [hx])]

theorem findPageCaptures_append_of_none (pre rest : List Char)
    (h : ∀ i, i < pre.length → matchPageAt (pre.drop i ++ rest) = none) :
    findPageCaptures (pre ++ rest) = findPageCaptures rest := by
  induction pre with
  | nil => rfl
  | cons c pre' ih =>
    have h0 : matchPageAt (c :: (pre' ++ rest)) = none := by
      simpa using h 0 (by simp)
    rw [List.cons_append, findPageCaptures_cons_none h0]
    exact ih fun i hi => by simpa using h (i + 1) (by simpa using Nat.succ_lt_succ hi)

theorem digit_ne {c x : Char} (h : c.isDigit = true) (hx : x.isDigit = false) :
    c ≠ x := by
  intro he
  subst he
  rw [h] at hx
  cases hx

theorem findPageCaptures_digits_amp (ds rest : List Char)
    (hd : ∀ c ∈ ds, c.isDigit = true) :
    findPageCaptures (ds ++ '&' :: rest) = findPageCaptures ('&' :: rest) := by
  induction ds with
  | nil => rfl
  | cons c ds' ih =>
    have hnone : matchPageAt (c :: (ds' ++ '&' :: rest)) = none := by
      apply matchPageAt_none_of_stripLit
      cases ds' with
      | nil => exact stripLit_page_none _ (by decide)
      | cons c2 ds'' =>
        exact stripLit_page_none _ (digit_ne (hd c2 (by simp)) (by decide))
    rw [List.cons_append, findPageCaptures_cons_none hnone]
    exact ih fun x hx => hd x (by simp [hx])

theorem matchPageAt_amp_page (ds : List Char) (hne : ds ≠ [])
    (hd : ∀ c ∈ ds, c.isDigit = true) :
    matchPageAt ('&' :: 'p' :: 'a' :: 'g' :: 'e' :: '=' :: ds)
      = some (ds.asString, []) := by
  have hstrip : stripLit [ 'p', 'a', 'g', 'e', '=' ]
      ('p' :: 'a' :: 'g' :: 'e' :: '=' :: ds) = some ds :=
    stripLit_self [ 'p', 'a', 'g', 'e', '=' ] ds
  have htake : ds.takeWhile Char.isDigit = ds :=
    List.takeWhile_eq_self_iff.2 hd
  have hdse : ds.isEmpty = false := by
    cases ds with
    | nil => exact absurd rfl hne
    | cons a l => rfl
  rw [matchPageAt_cons, if_neg (by decide), hstrip]
  show (if (ds.takeWhile Char.isDigit).isEmpty = true then none
      else some ((ds.takeWhile Char.isDigit).asString,
        ds.drop (ds.takeWhile Char.isDigit).length)) = some (ds.asString, [])
  rw [htake, if_neg (by simp [hdse]), List.drop_length]

theorem parseUnsigned_digits (bits : Nat) (ds : List Char) (hne : ds ≠ [])
    (hd : ∀ c ∈ ds, c.isDigit = true) (hlt : digitsVal ds < 2 ^ bits) :
    parseUnsigned bits ds.asString = some (digitsVal ds) := by
  cases ds with
  | nil => exact absurd rfl hne
  | cons c ds' =>
    have hc : ¬ ((c :: ds' : List Char).head? = some '+') := by
      simp only [List.head?_cons, Option.some.injEq]
      exact digit_ne (hd c (by simp)) (by decide)
    have hall : (c :: ds').all Char.isDigit = true := List.all_eq_true.2 hd
    have hdata : (List.asString (c :: ds')).data = c :: ds' := rfl
    unfold parseUnsigned
    rw [hdata, if_neg hc]
    simp only [List.isEmpty_cons, hall, hlt, if_true, if_false, Bool.false_eq_true]

/-- Claim C7: for every `rel="next"` url whose query string contains both
a `per_page` parameter and a standalone `page` parameter (any non-empty
digit values), the page-number extraction pattern excludes the `per_page`
key — the only capture is the standalone `page` value — and
`parse_link_headers` stores that value's number as the next page. -/
theorem c7_per_page_key_excluded (d1 d2 : List Char) (h1 : d1 ≠ []) (h2 : d2 ≠ [])
    (hd1 : ∀ c ∈ d1, c.isDigit = true) (hd2 : ∀ c ∈ d2, c.isDigit = true)
    (hlt : digitsVal d2 < 2 ^ 32) :
    findPageCaptures (perPageUrl d1 d2).data = [ d2.asString ]
    ∧ parse_link_headers (mkEntry (perPageUrl d1 d2) NEXT)
      = { next := some (Page.new (perPageUrl d1 d2) (digitsVal d2)), last := none } := by
  have hdata : (perPageUrl d1 d2).data
      = String.data "http://localhost?per_page"
        ++ ('=' :: (d1 ++ ('&' :: 'p' :: 'a' :: 'g' :: 'e' :: '=' :: d2))) := by
    show String.data
        ( "http://localhost?per_page=" ++ List.asString d1 ++ "&page=" ++ List.asString d2)
      = _
    rw [String.data_append, String.data_append, String.data_append]
    rw [show String.data "http://localhost?per_page="
        = String.data "http://localhost?per_page" ++ [ '=' ] from rfl]
    rw [show (List.asString d1).data = d1 from rfl,
      show (List.asString d2).data = d2 from rfl,
      show String.data "&page=" = [ '&', 'p', 'a', 'g', 'e', '=' ] from rfl]
    simp [List.append_assoc]
  have hnone : ∀ i, i < (String.data "http://localhost?per_page").length →
      matchPageAt ((String.data "http://localhost?per_page").drop i
        ++ ('=' :: (d1 ++ ('&' :: 'p' :: 'a' :: 'g' :: 'e' :: '=' :: d2)))) = none := by
    intro i hi
    have hi' : i < 25 := by simpa using hi
    interval_cases i <;>
      first
        | exact matchPageAt_append_none _ _ (by decide) (by decide)
        | exact matchPageAt_none_of_excluded _ (by decide)
        | exact matchPageAt_none_of_stripLit (stripLit_page_none _ (by decide))
  have hrest : findPageCaptures
      ('=' :: (d1 ++ ('&' :: 'p' :: 'a' :: 'g' :: 'e' :: '=' :: d2))) = [ d2.asString ] := by
    have h0 : matchPageAt
        ('=' :: (d1 ++ ('&' :: 'p' :: 'a' :: 'g' :: 'e' :: '=' :: d2))) = none := by
      apply matchPageAt_none_of_stripLit
      cases d1 with
      | nil => exact absurd rfl h1
      | cons c1 d1' =>
        rw [List.cons_append]
        exact stripLit_page_none _ (digit_ne (hd1 c1 (by simp)) (by decide))
    rw [findPageCaptures_cons_none h0,
      findPageCaptures_digits_amp d1 _ hd1,
      findPageCaptures_cons_some_nil (matchPageAt_amp_page d2 h2 hd2)]
  have hfirst : findPageCaptures (perPageUrl d1 d2).data = [ d2.asString ] := by
    rw [hdata, findPageCaptures_append_of_none _ _ hnone]
    exact hrest
  have hne : (perPageUrl d1 d2).data ≠ [] := by
    rw [hdata]
    simp
  have hgt : ∀ c ∈ (perPageUrl d1 d2).data, c ≠ '>' := by
    intro c hc
    rw [hdata] at hc
    simp only [List.mem_append, List.mem_cons] at hc
    rcases hc with hm | rfl | hm | rfl | rfl | rfl | rfl | rfl | rfl | hm
    · rcases hm with rfl | rfl | rfl | rfl | rfl | rfl | rfl | rfl | rfl | rfl | rfl | rfl |
        rfl | rfl | rfl | rfl | rfl | rfl | rfl | rfl | rfl | rfl | rfl | rfl | rfl | h0 <;>
        first
          | decide
          | cases h0
    · decide
    · exact digit_ne (hd1 c hm) (by decide)
    · decide
    · decide
    · decide
    · decide
    · decide
    · decide
    · exact digit_ne (hd2 c hm) (by decide)
  have hpn : pageNumberOf d2.asString = digitsVal d2 := by
    rw [pageNumberOf, parseUnsigned_digits 32 d2 h2 hd2 hlt]
    rfl
  refine ⟨hfirst, ?_⟩
  rw [parse_link_headers_mkEntry_next (perPageUrl d1 d2) d2.asString hne hgt hfirst, hpn]

theorem c7_witness :
    findPageCaptures (perPageUrl [ '2', '0' ] [ '3' ]).data = [ List.asString [ '3' ] ]
    ∧ parse_link_headers (mkEntry (perPageUrl [ '2', '0' ] [ '3' ]) NEXT)
      = { next := some (Page.new (perPageUrl [ '2', '0' ] [ '3' ]) (digitsVal [ '3' ])),
          last := none } :=
  c7_per_page_key_excluded [ '2', '0' ] [ '3' ] (by decide) (by decide) (by decide)
    (by decide) (by decide)
